import Mathlib

set_option maxRecDepth 100000

/-!
Shallow embedding of the go-gost/hosts package (hosts.go): a static
hostname-to-IP table with a line-oriented configuration parser, a
live-reload operation and a stop latch.  Strings are modelled at the
character level (the Go code only manipulates ASCII bytes and valid
UTF-8), Go `time.Duration` is modelled as `Int` (nanoseconds), Go
`net.IP` as an optional list of bytes (`none` models the nil slice).
The Go standard-library helpers the package calls
(`strings.TrimSpace`, `strings.Split`, `time.ParseDuration`,
`net.ParseIP`, `bufio.Scanner`) are translated here as well, following
the standard library sources of the Go version the package targets.
-/

namespace hosts

/-- whitespace predicate of Go `unicode.IsSpace` (the White_Space property):
used by `strings.TrimSpace`. -/
def goIsSpace (c : Char) : Bool :=
  c = ' ' || c = '\t' || c = '\n' || c.toNat = 11 || c.toNat = 12 || c = '\r' ||
  c.toNat = 0x85 || c.toNat = 0xA0 || c.toNat = 0x1680 ||
  (0x2000 ≤ c.toNat && c.toNat ≤ 0x200A) || c.toNat = 0x2028 || c.toNat = 0x2029 ||
  c.toNat = 0x202F || c.toNat = 0x205F || c.toNat = 0x3000

/-- model of Go `strings.TrimSpace`: drop leading and trailing white space. -/
def trimSpace (cs : List Char) : List Char :=
  ((cs.dropWhile goIsSpace).reverse.dropWhile goIsSpace).reverse

/-- model of `line[:n]` for `n := strings.IndexByte(line, '#')` when `n >= 0`
(and the identity when no `'#'` occurs). -/
def truncAtHash (cs : List Char) : List Char :=
  cs.takeWhile (fun c => ¬c = '#')

/-- model of `strings.Replace(line, "\t", " ", -1)`, applied per character. -/
def tabToSpace (c : Char) : Char :=
  if c = '\t' then ' ' else c

/-- model of Go `strings.Split(s, sep)` for a one-character separator:
splits at every occurrence, keeping empty fragments (so `N` separators
produce `N+1` fragments, and the empty string produces one empty fragment). -/
def splitOnChar (sep : Char) : List Char → List (List Char)
  | [] => [[]]
  | c :: rest =>
    let r := splitOnChar sep rest
    if c = sep then [] :: r
    else
      match r with
      | h :: t => (c :: h) :: t
      | [] => [[c]]

/-- the final loop of `splitLine`: trim each fragment with
`strings.TrimSpace` and append it to the output when non-empty. -/
def collectFields : List (List Char) → List String
  | [] => []
  | s :: rest =>
    let t := trimSpace s
    if t = [] then collectFields rest
    else String.mk t :: collectFields rest

/-- translation of `splitLine` (hosts.go): return nil for the empty line,
truncate at the first `'#'`, replace tabs by spaces, trim the line, split
on single spaces and keep the fragments that are non-empty after trimming. -/
def splitLine (line : String) : List String :=
  if line = "" then []
  else collectFields (splitOnChar ' ' (trimSpace ((truncAtHash line.toList).map tabToSpace)))

/-- Modelled from the spec words for the tokenizer (§4.2): truncate at the
first `'#'`, replace each tab by a space, trim leading and trailing
whitespace, split on single-space boundaries and discard the empty
fragments — with no further per-fragment trimming. -/
def specTokenize (line : String) : List String :=
  ((splitOnChar ' ' (trimSpace ((truncAtHash line.toList).map tabToSpace))).filter
    (fun s => ¬s = [])).map (fun s => String.mk s)

/-- Modelled from the spec words for the tokenizer, amended to match the
code: after splitting on single spaces, each fragment is additionally
trimmed of whitespace, and fragments that are empty after trimming are
discarded. -/
def specTokenizeTrimmed (line : String) : List String :=
  ((((splitOnChar ' ' (trimSpace ((truncAtHash line.toList).map tabToSpace))).map
    trimSpace).filter (fun s => ¬s = [])).map (fun s => String.mk s))

theorem collectFields_eq (l : List (List Char)) :
    collectFields l = ((l.map trimSpace).filter (fun s => ¬s = [])).map (fun s => String.mk s) := by
  induction l with
  | nil => rfl
  | cons s rest ih =>
    by_cases h : trimSpace s = [] <;> simp [collectFields, h, ih]

example : splitLine "" = [] := by decide
example : splitLine "  192.168.1.1 \t host.local  alias1  alias2 # comment" =
    ["192.168.1.1", "host.local", "alias1", "alias2"] := by decide
example : splitLine "a \r b" = ["a", "b"] := by decide
example : specTokenize "a \r b" = ["a", "\r", "b"] := by decide

/-! Translation of Go `time.ParseDuration` (time/format.go).  A Go
duration is an `int64` count of nanoseconds; the parser accumulates an
unsigned magnitude with explicit overflow checks against `2^63`, so the
magnitude is carried here as `Nat` with the same explicit bound checks.
On error Go returns the zero duration together with the error; this is
modelled by the pair `Int × Option String`. -/

/-- digit test `'0' <= c && c <= '9'` used throughout the Go parsers. -/
def isDigitChar (c : Char) : Bool :=
  '0' ≤ c && c ≤ '9'

/-- translation of `leadingInt` (time/format.go): consume leading decimal
digits into `x`, failing (`none`) on overflow past `2^63`; returns the
value and the remaining characters. -/
def leadingInt : List Char → Nat → Option (Nat × List Char)
  | [], x => some (x, [])
  | c :: rest, x =>
    if isDigitChar c then
      if x > 2 ^ 63 / 10 then none
      else
        let x1 := x * 10 + (c.toNat - 48)
        if x1 > 2 ^ 63 then none
        else leadingInt rest x1
    else some (x, c :: rest)

/-- translation of `leadingFraction` (time/format.go): consume digits after
the decimal point into `x` with `scale` the power of ten of consumed
digits, silently stopping the accumulation (but not the consumption) once
the value would overflow `2^63 - 1`. -/
def leadingFraction : List Char → Nat → Nat → Bool → Nat × Nat × List Char
  | [], x, scale, _ => (x, scale, [])
  | c :: rest, x, scale, overflow =>
    if isDigitChar c then
      if overflow then leadingFraction rest x scale overflow
      else if x > (2 ^ 63 - 1) / 10 then leadingFraction rest x scale true
      else
        let y := x * 10 + (c.toNat - 48)
        if y > 2 ^ 63 then leadingFraction rest x scale true
        else leadingFraction rest y (scale * 10) overflow
    else (x, scale, c :: rest)

/-- translation of the `unitMap` of time/format.go, as nanoseconds per unit. -/
def unitMap (u : String) : Option Nat :=
  if u = "ns" then some 1
  else if u = "us" || u = "µs" || u = "μs" then some 1000
  else if u = "ms" then some 1000000
  else if u = "s" then some 1000000000
  else if u = "m" then some 60000000000
  else if u = "h" then some 3600000000000
  else none

theorem leadingInt_rem_length (s : List Char) (x v : Nat) (r : List Char)
    (h : leadingInt s x = some (v, r)) : r.length ≤ s.length := by
  induction s generalizing x with
  | nil =>
    simp only [leadingInt, Option.some.injEq, Prod.mk.injEq] at h
    simp [← h.2]
  | cons c rest ih =>
    simp only [leadingInt] at h
    split at h
    · split at h
      · exact absurd h (by simp)
      · split at h
        · exact absurd h (by simp)
        · exact Nat.le_succ_of_le (ih _ h)
    · simp only [Option.some.injEq, Prod.mk.injEq] at h
      simp [← h.2]

theorem leadingFraction_rem_length (s : List Char) (x scale : Nat) (b : Bool) :
    (leadingFraction s x scale b).2.2.length ≤ s.length := by
  induction s generalizing x scale b with
  | nil => simp [leadingFraction]
  | cons c rest ih =>
    simp only [leadingFraction]
    split
    · split
      · exact Nat.le_succ_of_le (ih _ _ _)
      · split
        · exact Nat.le_succ_of_le (ih _ _ _)
        · split
          · exact Nat.le_succ_of_le (ih _ _ _)
          · exact Nat.le_succ_of_le (ih _ _ _)
    · simp

/-- predicate for the end of a unit token in `ParseDuration`: the unit is
the maximal run of characters that are neither digits nor `'.'`. -/
def isUnitChar (c : Char) : Bool :=
  ¬(c = '.' || isDigitChar c)

theorem dropWhile_length_lt_of_takeWhile_ne_nil {α : Type} (p : α → Bool) (l : List α)
    (h : ¬l.takeWhile p = []) : (l.dropWhile p).length < l.length := by
  have e : (l.takeWhile p).length + (l.dropWhile p).length = l.length := by
    rw [← List.length_append, List.takeWhile_append_dropWhile]
  have hpos : 0 < (l.takeWhile p).length := List.length_pos.mpr h
  omega

/-- translation of the main loop of `time.ParseDuration`
(`for s != "" { ... }`): each round consumes an optional integer part, an
optional fraction and a mandatory unit, accumulating nanoseconds in `d`
with the overflow checks of the Go code.  Where Go converts the fraction
with float64 arithmetic (`v += uint64(float64(f) * (float64(unit)/scale))`),
the model uses exact natural division, which agrees on the values the
float64 path computes exactly.  Errors are collapsed to `none`; every Go
error return carries the zero duration, which the caller restores. -/
def durLoop (s : List Char) (d : Nat) : Option Nat :=
  match s.head? with
  | none => some d
  | some c0 =>
    if ¬(c0 = '.' || isDigitChar c0) then none
    else
      match h1 : leadingInt s 0 with
      | none => none
      | some (v, s1) =>
        let pre : Bool := s1.length != s.length
        if hdot : s1.head? = some '.' then
          match h3 : leadingFraction s1.tail 0 1 false with
          | (f, scale, s2) =>
            let post : Bool := s2.length != s1.tail.length
            if !pre && !post then none
            else if hu : s2.takeWhile isUnitChar = [] then none
            else
              match unitMap (String.mk (s2.takeWhile isUnitChar)) with
              | none => none
              | some unit =>
                if v > 2 ^ 63 / unit then none
                else
                  let v1 := v * unit
                  if f > 0 then
                    let v2 := v1 + f * unit / scale
                    if v2 > 2 ^ 63 then none
                    else if d + v2 > 2 ^ 63 then none
                    else durLoop (s2.dropWhile isUnitChar) (d + v2)
                  else if d + v1 > 2 ^ 63 then none
                  else durLoop (s2.dropWhile isUnitChar) (d + v1)
        else
          if !pre then none
          else if hu : s1.takeWhile isUnitChar = [] then none
          else
            match unitMap (String.mk (s1.takeWhile isUnitChar)) with
            | none => none
            | some unit =>
              if v > 2 ^ 63 / unit then none
              else
                let v1 := v * unit
                if d + v1 > 2 ^ 63 then none
                else durLoop (s1.dropWhile isUnitChar) (d + v1)
  termination_by s.length
  decreasing_by
  · have hA := dropWhile_length_lt_of_takeWhile_ne_nil isUnitChar s2 hu
    have hB : s2.length ≤ s1.tail.length := by
      have hf := leadingFraction_rem_length s1.tail 0 1 false
      rw [h3] at hf
      exact hf
    have hC : s1.length ≤ s.length := leadingInt_rem_length s 0 v s1 h1
    have hne : s1 ≠ [] := by
      intro he
      rw [he] at hdot
      exact Option.noConfusion hdot
    have hpos : 0 < s1.length := List.length_pos.mpr hne
    have ht : s1.tail.length = s1.length - 1 := List.length_tail s1
    omega
  · have hA := dropWhile_length_lt_of_takeWhile_ne_nil isUnitChar s2 hu
    have hB : s2.length ≤ s1.tail.length := by
      have hf := leadingFraction_rem_length s1.tail 0 1 false
      rw [h3] at hf
      exact hf
    have hC : s1.length ≤ s.length := leadingInt_rem_length s 0 v s1 h1
    have hne : s1 ≠ [] := by
      intro he
      rw [he] at hdot
      exact Option.noConfusion hdot
    have hpos : 0 < s1.length := List.length_pos.mpr hne
    have ht : s1.tail.length = s1.length - 1 := List.length_tail s1
    omega
  · have hA := dropWhile_length_lt_of_takeWhile_ne_nil isUnitChar s1 hu
    have hC : s1.length ≤ s.length := leadingInt_rem_length s 0 v s1 h1
    omega

/-- sign consumption at the top of `time.ParseDuration`: an optional
leading `'-'` or `'+'`, returning the negation flag and the rest. -/
def durSign (cs0 : List Char) : Bool × List Char :=
  match cs0 with
  | '-' :: r => (true, r)
  | '+' :: r => (false, r)
  | _ => (false, cs0)

/-- translation of `time.ParseDuration` (time/format.go): optional sign,
the special case `"0"`, then the component loop; returns the duration in
nanoseconds paired with an optional error, and the zero duration on every
error (the error texts are condensed to the leading invalid-duration
message). -/
def parseDuration (str : String) : Int × Option String :=
  let neg := (durSign str.toList).1
  let cs := (durSign str.toList).2
  if cs = ['0'] then (0, none)
  else if cs = [] then (0, some ("time: invalid duration " ++ str))
  else
    match durLoop cs 0 with
    | none => (0, some ("time: invalid duration " ++ str))
    | some d =>
      if neg then (-(d : Int), none)
      else if d > 2 ^ 63 - 1 then (0, some ("time: invalid duration " ++ str))
      else ((d : Int), none)

example : parseDuration "30s" = (30000000000, none) := by
  simp [parseDuration, durSign, durLoop, leadingInt, leadingFraction, unitMap, isDigitChar, isUnitChar]
example : parseDuration "-1ns" = (-1, none) := by
  simp [parseDuration, durSign, durLoop, leadingInt, leadingFraction, unitMap, isDigitChar, isUnitChar]
example : (parseDuration "abc").1 = 0 := by
  simp [parseDuration, durSign, durLoop, leadingInt, leadingFraction, unitMap, isDigitChar, isUnitChar]
example : parseDuration "1h30m" = (5400000000000, none) := by
  simp [parseDuration, durSign, durLoop, leadingInt, leadingFraction, unitMap, isDigitChar, isUnitChar]
example : parseDuration "1.5s" = (1500000000, none) := by
  simp [parseDuration, durSign, durLoop, leadingInt, leadingFraction, unitMap, isDigitChar, isUnitChar]
example : parseDuration "0" = (0, none) := by
  simp [parseDuration, durSign, durLoop, leadingInt, leadingFraction, unitMap, isDigitChar, isUnitChar]
example : (parseDuration "10").2.isSome = true := by
  simp [parseDuration, durSign, durLoop, leadingInt, leadingFraction, unitMap, isDigitChar, isUnitChar]

/-! Translation of Go `net.ParseIP` (net/ip.go, net/parse.go of the classic
pre-netip implementation).  A Go `net.IP` is a byte slice, possibly nil;
here an address is a list of byte values and the nil slice is `Option.none`
at the use sites. -/

/-- byte-list representation of a parsed `net.IP` address. -/
abbrev IPAddr := List Nat

/-- translation of the loop of `dtoi` (net/parse.go): consume decimal
digits, returning value, consumed count and the ok flag; values reaching
`big = 0xFFFFFF` report failure. -/
def dtoiLoop : List Char → Nat → Nat → Nat × Nat × Bool
  | [], n, i => if i = 0 then (0, 0, false) else (n, i, true)
  | c :: rest, n, i =>
    if isDigitChar c then
      let n1 := n * 10 + (c.toNat - 48)
      if n1 ≥ 0xFFFFFF then (0xFFFFFF, i, false)
      else dtoiLoop rest n1 (i + 1)
    else if i = 0 then (0, 0, false) else (n, i, true)

/-- translation of `dtoi` (net/parse.go). -/
def dtoi (s : List Char) : Nat × Nat × Bool :=
  dtoiLoop s 0 0

/-- hexadecimal value of a character along the three digit classes of
`xtoi` (net/parse.go), `none` when not a hex digit. -/
def hexVal (c : Char) : Option Nat :=
  if isDigitChar c then some (c.toNat - 48)
  else if 'a' ≤ c && c ≤ 'f' then some (c.toNat - 97 + 10)
  else if 'A' ≤ c && c ≤ 'F' then some (c.toNat - 65 + 10)
  else none

/-- translation of the loop of `xtoi` (net/parse.go): consume hexadecimal
digits; values reaching `big = 0xFFFFFF` report failure. -/
def xtoiLoop : List Char → Nat → Nat → Nat × Nat × Bool
  | [], n, i => if i = 0 then (n, i, false) else (n, i, true)
  | c :: rest, n, i =>
    match hexVal c with
    | none => if i = 0 then (n, i, false) else (n, i, true)
    | some v =>
      let n1 := n * 16 + v
      if n1 ≥ 0xFFFFFF then (0, i + 1, false)
      else xtoiLoop rest n1 (i + 1)

/-- translation of `xtoi` (net/parse.go). -/
def xtoi (s : List Char) : Nat × Nat × Bool :=
  xtoiLoop s 0 0

theorem xtoiLoop_count_le (s : List Char) (n i n2 c2 : Nat) (ok : Bool)
    (he : xtoiLoop s n i = (n2, c2, ok)) : c2 ≤ i + s.length := by
  induction s generalizing n i n2 c2 ok with
  | nil =>
    simp only [xtoiLoop] at he
    split at he <;> (simp only [Prod.mk.injEq] at he; omega)
  | cons c rest ih =>
    simp only [xtoiLoop] at he
    split at he
    · split at he <;>
        (simp only [Prod.mk.injEq] at he; simp only [List.length_cons]; omega)
    · split at he
      · simp only [Prod.mk.injEq] at he
        simp only [List.length_cons]
        omega
      · have := ih _ _ _ _ _ he
        simp only [List.length_cons]
        omega

theorem xtoiLoop_ok_count (s : List Char) (n i n2 c2 : Nat)
    (he : xtoiLoop s n i = (n2, c2, true)) : max i 1 ≤ c2 := by
  induction s generalizing n i n2 c2 with
  | nil =>
    simp only [xtoiLoop] at he
    split at he
    · simp at he
    · next hne =>
      simp only [Prod.mk.injEq] at he
      omega
  | cons c rest ih =>
    simp only [xtoiLoop] at he
    split at he
    · split at he
      · simp at he
      · next hne =>
        simp only [Prod.mk.injEq] at he
        omega
    · split at he
      · simp at he
      · have := ih _ _ _ _ he
        omega

theorem xtoi_count_le (s : List Char) (n c : Nat) (ok : Bool)
    (he : xtoi s = (n, c, ok)) : c ≤ s.length := by
  have := xtoiLoop_count_le s 0 0 n c ok he
  omega

theorem xtoi_ok_pos (s : List Char) (n c : Nat)
    (he : xtoi s = (n, c, true)) : 1 ≤ c := by
  have := xtoiLoop_ok_count s 0 0 n c he
  omega

/-- translation of `IPv4(a, b, c, d)` (net/ip.go): the 16-byte form of an
IPv4 address, with the `v4InV6Prefix` in front. -/
def IPv4 (a b c d : Nat) : IPAddr :=
  [0, 0, 0, 0, 0, 0, 0, 0, 0, 0, 0xFF, 0xFF, a, b, c, d]

/-- one field of `parseIPv4` (net/ip.go): a decimal octet at the front of
`s`, at most 255, with no leading zero; returns the octet and the rest. -/
def ipv4Field (s : List Char) : Option (Nat × List Char) :=
  match dtoi s with
  | (n, c, ok) =>
    if ¬ok || n > 0xFF then none
    else if c > 1 && s.head? = some '0' then none
    else some (n, s.drop c)

/-- field loop of `parseIPv4` (net/ip.go): four dot-separated octets and
nothing left over. -/
def parseIPv4Fields : Nat → List Char → List Nat → Option IPAddr
  | 0, s, acc =>
    if s = [] then
      match acc with
      | [a, b, c, d] => some (IPv4 a b c d)
      | _ => none
    else none
  | k + 1, s, acc =>
    if s = [] then none
    else
      let sF : Option (List Char) :=
        if acc = [] then some s
        else
          match s with
          | '.' :: r => some r
          | _ => none
      match sF with
      | none => none
      | some s1 =>
        match ipv4Field s1 with
        | none => none
        | some (n, s2) => parseIPv4Fields k s2 (acc ++ [n])

/-- translation of `parseIPv4` (net/ip.go): dotted-decimal notation,
yielding the 16-byte IPv4-in-IPv6 representation. -/
def parseIPv4Go (s : List Char) : Option IPAddr :=
  parseIPv4Fields 4 s []

example : parseIPv4Go "192.168.1.1".toList = some (IPv4 192 168 1 1) := by decide
example : parseIPv4Go "192.168.1".toList = none := by decide
example : parseIPv4Go "192.168.1.256".toList = none := by decide
example : parseIPv4Go "192.168.01.1".toList = none := by decide
example : parseIPv4Go "not-an-ip".toList = none := by decide

/-- translation of the main loop of `parseIPv6` (net/ip.go): parse colon
separated 16-bit hex chunks into the byte accumulator, handling a trailing
dotted IPv4 part and a single `::` ellipsis; returns the accumulated
bytes, the ellipsis position and the unconsumed rest of the input. -/
def ipv6Loop (s : List Char) (acc : List Nat) (ellipsis : Option Nat) :
    Option (List Nat × Option Nat × List Char) :=
  if acc.length ≥ 16 then some (acc, ellipsis, s)
  else
    match hx : xtoi s with
    | (n, c, ok) =>
      if hok : ok = false ∨ n > 0xFFFF then none
      else if (s.drop c).head? = some '.' then
        if ellipsis = none ∧ acc.length ≠ 12 then none
        else if acc.length + 4 > 16 then none
        else
          match parseIPv4Go s with
          | none => none
          | some ip4 => some (acc ++ ip4.drop 12, ellipsis, [])
      else
        let acc1 := acc ++ [n / 256, n % 256]
        let s1 := s.drop c
        if s1 = [] then some (acc1, ellipsis, [])
        else if ¬s1.head? = some ':' ∨ s1.length = 1 then none
        else
          let s2 := s1.drop 1
          if s2.head? = some ':' then
            if ellipsis.isSome then none
            else
              let s3 := s2.drop 1
              if s3 = [] then some (acc1, some acc1.length, [])
              else ipv6Loop s3 acc1 (some acc1.length)
          else ipv6Loop s2 acc1 ellipsis
  termination_by s.length
  decreasing_by
  · have hok1 : ok = true := by
      rcases Bool.eq_false_or_eq_true ok with h | h
      · exact h
      · exact absurd (Or.inl h) hok
    rw [hok1] at hx
    have h1 := xtoi_count_le s n c true hx
    have h2 := xtoi_ok_pos s n c hx
    simp only [List.length_drop]
    omega
  · have hok1 : ok = true := by
      rcases Bool.eq_false_or_eq_true ok with h | h
      · exact h
      · exact absurd (Or.inl h) hok
    rw [hok1] at hx
    have h1 := xtoi_count_le s n c true hx
    have h2 := xtoi_ok_pos s n c hx
    simp only [List.length_drop]
    omega

/-- final phase of `parseIPv6` (net/ip.go): after the loop, the entire
input must be consumed; a short address needs an ellipsis, which expands
to the missing zero bytes at its recorded position, and a full 16-byte
address must not also carry an ellipsis. -/
def parseIPv6Finish (r : Option (List Nat × Option Nat × List Char)) : Option IPAddr :=
  match r with
  | none => none
  | some (ip, ell, rem) =>
    if ¬rem = [] then none
    else if ip.length < 16 then
      match ell with
      | none => none
      | some e => some (ip.take e ++ List.replicate (16 - ip.length) 0 ++ ip.drop e)
    else
      match ell with
      | some _ => none
      | none => some ip

/-- translation of `parseIPv6` (net/ip.go): an optional leading `::`
(possibly the whole input), then the chunk loop and the final expansion. -/
def parseIPv6Go (s0 : List Char) : Option IPAddr :=
  match s0 with
  | ':' :: ':' :: rest =>
    if rest = [] then some (List.replicate 16 0)
    else parseIPv6Finish (ipv6Loop rest [] (some 0))
  | _ => parseIPv6Finish (ipv6Loop s0 [] none)

/-- last index of a character, as in `bytealg.LastIndexByteString`. -/
def lastIndexOfChar (c : Char) (s : List Char) : Option Nat :=
  match s.reverse.findIdx? (fun x => x = c) with
  | none => none
  | some j => some (s.length - 1 - j)

/-- translation of `splitHostZone` (net/ipsock.go): the zone starts after
the last `'%'` when one occurs at a positive index. -/
def splitHostZone (s : List Char) : List Char × List Char :=
  match lastIndexOfChar '%' s with
  | some i => if i > 0 then (s.take i, s.drop (i + 1)) else (s, [])
  | none => (s, [])

/-- scan of `net.ParseIP`: the first `'.'` or `':'` decides the format. -/
def ipClassify : List Char → Option Char
  | [] => none
  | c :: rest => if c = '.' || c = ':' then some c else ipClassify rest

/-- translation of `net.ParseIP` (net/ip.go): dispatch on the first `'.'`
or `':'`; a string with neither is not an address (nil, here `none`); the
IPv6 path drops any zone suffix. -/
def ParseIP (s : String) : Option IPAddr :=
  match ipClassify s.toList with
  | some '.' => parseIPv4Go s.toList
  | some _ => parseIPv6Go (splitHostZone s.toList).1
  | none => none

example : ParseIP "192.168.1.1" = some (IPv4 192 168 1 1) := by decide
example : ParseIP "not-an-ip" = none := by decide
example : ParseIP "reload" = none := by decide
example : parseIPv6Go "::1".toList =
    some [0, 0, 0, 0, 0, 0, 0, 0, 0, 0, 0, 0, 0, 0, 0, 1] := by
  simp [parseIPv6Go, ipv6Loop, parseIPv6Finish, xtoi, xtoiLoop, hexVal, isDigitChar]
example : parseIPv6Go "1:2:3:4:5:6:7:8".toList =
    some [0, 1, 0, 2, 0, 3, 0, 4, 0, 5, 0, 6, 0, 7, 0, 8] := by
  simp [parseIPv6Go, ipv6Loop, parseIPv6Finish, xtoi, xtoiLoop, hexVal, isDigitChar,
    parseIPv4Go, parseIPv4Fields, ipv4Field, dtoi, dtoiLoop]

/-! The host table itself (hosts.go). -/

/-- translation of `Host` (hosts.go): a static mapping from hostname to
IP; the `IP` field is a Go `net.IP` slice, which may be nil (`none`). -/
structure Host where
  IP : Option IPAddr
  Hostname : String
  Aliases : List String
  deriving DecidableEq, Repr

/-- translation of `NewHost` (hosts.go). -/
def NewHost (ip : Option IPAddr) (hostname : String) (aliases : List String) : Host :=
  { IP := ip, Hostname := hostname, Aliases := aliases }

/-- translation of the `staticHosts` struct state (hosts.go): the record
sequence, the reload period and the stop latch.  The `stopped` channel is
a one-way latch, modelled by a Boolean; the `sync.RWMutex` serialises the
operations, which the sequential model reflects by making each operation
a function from state to state. -/
structure staticHosts where
  hosts : List Host
  period : Int
  stopped : Bool
  deriving DecidableEq, Repr

/-- translation of `NewHosts` (hosts.go): seed records, zero period, open
stop channel. -/
def NewHosts (hs : List Host) : staticHosts :=
  { hosts := hs, period := 0, stopped := false }

/-- translation of `Stopped` (hosts.go): observe the stop latch. -/
def staticHosts.Stopped (h : staticHosts) : Bool :=
  h.stopped

/-- translation of `Stop` (hosts.go): close the latch once; closing an
already-closed latch is a no-op. -/
def staticHosts.Stop (h : staticHosts) : staticHosts :=
  { h with stopped := true }

/-- the record scan of `Lookup` (hosts.go), with its exact break
structure: a hostname match returns that record's IP at once (the `break`
leaves the record loop), while an alias match only assigns the record's
IP to the result variable and leaves the alias loop, so the record scan
continues and later records may overwrite the result. -/
def lookupScan : List Host → String → Option IPAddr → Option IPAddr
  | [], _, ip => ip
  | h :: rest, host, ip =>
    if h.Hostname = host then h.IP
    else lookupScan rest host (if h.Aliases.contains host then h.IP else ip)

/-- translation of `Lookup` (hosts.go): nil receiver or empty query give
the nil IP; otherwise the record scan runs with the nil IP as the initial
result. -/
def Lookup (h : Option staticHosts) (host : String) : Option IPAddr :=
  match h with
  | none => none
  | some t => if host = "" then none else lookupScan t.hosts host none

/-- view of the `io.Reader` passed to `Reload` through `bufio.Scanner`:
the successive text lines the scanner delivers, followed by the value of
`scanner.Err()` once `Scan` returns false (`none` for a clean EOF).  The
nil reader of Go is `Option.none` at the call site of `Reload`. -/
structure Scanner where
  lines : List String
  err : Option String
  deriving DecidableEq, Repr

/-- one iteration of the scan loop of `Reload` (hosts.go) over the state
(pending period, pending host list): lines of fewer than two fields are
skipped; a `reload` first token assigns the parse of the second token to
the period (discarding the error); otherwise the first token must parse
as an IP, a failure skipping the line (the `break` leaves the `switch`),
and on success a record with the second token as hostname and the
remaining tokens as aliases is appended. -/
def processLine (acc : Int × List Host) (line : String) : Int × List Host :=
  match splitLine line with
  | s0 :: s1 :: rest =>
    if s0 = "reload" then ((parseDuration s1).1, acc.2)
    else
      match ParseIP s0 with
      | none => acc
      | some ip => (acc.1, acc.2 ++ [{ IP := some ip, Hostname := s1, Aliases := rest }])
  | _ => acc

/-- translation of `Reload` (hosts.go): a nil reader or a stopped table
returns nil at once with no state change; otherwise the lines are
processed from a zero period and an empty list, a scanner error is
returned with no state change, and on success the period and the host
sequence are replaced together. -/
def Reload (h : staticHosts) (r : Option Scanner) : staticHosts × Option String :=
  match r with
  | none => (h, none)
  | some sc =>
    if h.Stopped then (h, none)
    else
      let res := sc.lines.foldl processLine (0, [])
      match sc.err with
      | some e => (h, some e)
      | none => ({ h with period := res.1, hosts := res.2 }, none)

/-- translation of `Period` (hosts.go): `-1` once stopped, else the
stored period. -/
def Period (h : staticHosts) : Int :=
  if h.Stopped then -1 else h.period

example :
    Reload (NewHosts []) (some ⟨["# comment", "192.168.1.1   host.local   alias1  alias2",
      "reload 30s", "not-an-ip    bad"], none⟩) =
    ({ hosts := [{ IP := some (IPv4 192 168 1 1), Hostname := "host.local",
                   Aliases := ["alias1", "alias2"] }],
       period := 30000000000, stopped := false }, none) := by
  simp [Reload, processLine, splitLine, collectFields, splitOnChar, trimSpace, truncAtHash,
    tabToSpace, goIsSpace, ParseIP, ipClassify, parseIPv4Go, parseIPv4Fields, ipv4Field,
    dtoi, dtoiLoop, isDigitChar, parseDuration, durSign, durLoop, leadingInt, leadingFraction,
    unitMap, isUnitChar, NewHosts, staticHosts.Stopped]

/-- Modelled from the spec words for Lookup (§4.1): scan the records in
sequence order and return the IP of the first record that matches by
hostname or by alias (hostname checked before the aliases); once a record
matches, no further records are examined. -/
def specFirstMatch : List Host → String → Option IPAddr
  | [], _ => none
  | h :: rest, host =>
    if h.Hostname = host then h.IP
    else if h.Aliases.contains host then h.IP
    else specFirstMatch rest host

/-- C1: the claim states that Lookup returns the IP of the first record in
sequence order that matches the query, hostname before aliases, and that
once any record matches no further records are examined.  The code
violates this: the `break` after an alias match only leaves the alias
loop, so the scan continues and a later matching record overwrites the
result.  On a table whose first record matches "web" by alias and whose
second record matches "web" by hostname, Lookup returns the second
record's IP, while the first-match rule of the claim selects the first
record's IP. -/
theorem C1_lookup_overwrites_alias_match :
    Lookup (some (NewHosts [NewHost (some (IPv4 192 0 2 1)) "legacy.example" ["web"],
                            NewHost (some (IPv4 192 0 2 2)) "web" []])) "web" =
      some (IPv4 192 0 2 2) ∧
    specFirstMatch [NewHost (some (IPv4 192 0 2 1)) "legacy.example" ["web"],
                    NewHost (some (IPv4 192 0 2 2)) "web" []] "web" =
      some (IPv4 192 0 2 1) ∧
    ¬IPv4 192 0 2 2 = IPv4 192 0 2 1 := by
  decide

theorem lookupScan_none (hs : List Host) (q : String)
    (h : ∀ hh ∈ hs, (hh.Hostname = q ∨ hh.Aliases.contains q = true) → hh.IP = none) :
    lookupScan hs q none = none := by
  induction hs with
  | nil => rfl
  | cons a rest ih =>
    have htail : ∀ hh ∈ rest, (hh.Hostname = q ∨ hh.Aliases.contains q = true) → hh.IP = none :=
      fun hh hmem hmatch => h hh (List.mem_cons_of_mem a hmem) hmatch
    simp only [lookupScan]
    by_cases h1 : a.Hostname = q
    · simp only [h1, if_true]
      exact h a (List.mem_cons_self a rest) (Or.inl h1)
    · simp only [h1, if_false]
      by_cases h2 : a.Aliases.contains q = true
      · rw [if_pos h2, h a (List.mem_cons_self a rest) (Or.inr h2)]
        exact ih htail
      · rw [if_neg h2]
        exact ih htail

/-- C10: if every record of the table that matches the query (by hostname
or by alias) carries the nil IP, Lookup returns the absent sentinel, the
same value it returns on a table with no records and on a nil table: a
successful name match on an IP-less record is indistinguishable from the
no-match result. -/
theorem C10_nil_ip_match_is_absent (t : staticHosts) (q : String)
    (h : ∀ hh ∈ t.hosts, (hh.Hostname = q ∨ hh.Aliases.contains q = true) → hh.IP = none) :
    Lookup (some t) q = none ∧ Lookup (some (NewHosts [])) q = none ∧
    Lookup none q = none := by
  refine ⟨?_, ?_, rfl⟩
  · simp only [Lookup]
    by_cases hq : q = ""
    · simp [hq]
    · simp only [hq, if_false]
      exact lookupScan_none t.hosts q h
  · by_cases hq : q = "" <;> simp [Lookup, NewHosts, hq, lookupScan]

theorem C10_witness :
    Lookup (some (NewHosts [NewHost none "example.com" []])) "example.com" = none ∧
    Lookup (some (NewHosts [])) "example.com" = none ∧
    Lookup none "example.com" = none :=
  C10_nil_ip_match_is_absent (NewHosts [NewHost none "example.com" []]) "example.com"
    (by decide)

/-- C6: after Stop, Period always returns the sentinel -1, whatever the
table state (in particular whatever prior reloads produced), and every
subsequent Reload returns success (nil error) leaving the host sequence
and period exactly as they were. -/
theorem C6_stopped_table (t : staticHosts) (r : Option Scanner) :
    Period t.Stop = -1 ∧ Reload t.Stop r = (t.Stop, none) := by
  constructor
  · rfl
  · cases r with
    | none => rfl
    | some sc => simp [Reload, staticHosts.Stop, staticHosts.Stopped]

theorem parseDuration_err_zero (s : String) :
    (parseDuration s).2.isSome = true → (parseDuration s).1 = 0 := by
  unfold parseDuration
  by_cases h1 : (durSign s.data).2 = ['0']
  · simp [h1]
  · by_cases h2 : (durSign s.data).2 = []
    · simp [h1, h2]
    · cases h3 : durLoop (durSign s.data).2 0 with
      | none => simp [h1, h2, h3]
      | some d =>
        by_cases h4 : (durSign s.data).1 = true
        · simp [h1, h2, h3, h4]
        · by_cases h5 : (9223372036854775807 : Nat) < d
          · simp [h1, h2, h3, h4, h5]
          · simp [h1, h2, h3, h4, h5]

/-- C2: the claim states that on a `reload` directive line whose second
token fails to parse as a duration, the pending period remains whatever
was parsed last.  The code instead assigns the parser's result even on
failure, and Go's duration parser returns the zero duration with every
error, so a failed parse resets the pending period to zero: after the
lines `reload 30s` and `reload abc`, the installed period is 0, not the
30s parsed last. -/
theorem C2_failed_parse_counterexample :
    (Reload (NewHosts []) (some ⟨["reload 30s", "reload abc"], none⟩)).1.period = 0 ∧
    (Reload (NewHosts []) (some ⟨["reload 30s", "reload abc"], none⟩)).2 = none ∧
    parseDuration "30s" = (30000000000, none) ∧
    (parseDuration "abc").2.isSome = true ∧
    ¬(0 : Int) = 30000000000 := by
  refine ⟨?_, ?_, ?_, ?_, by decide⟩ <;>
    simp [Reload, processLine, splitLine, collectFields, splitOnChar, trimSpace, truncAtHash,
      tabToSpace, goIsSpace, parseDuration, durSign, durLoop, leadingInt, leadingFraction, unitMap,
      isUnitChar, isDigitChar, NewHosts, staticHosts.Stopped]

/-- C2 (amended): on every line whose first token is the literal `reload`
keyword (and which has a second token), the pending period is assigned
the duration parser's first return value — which is zero whenever the
parse fails, discarding any previously parsed period — no error is
surfaced, and the line contributes no host record. -/
theorem C2_reload_directive_sets_parse_result (acc : Int × List Host) (line s1 : String)
    (rest : List String) (hsplit : splitLine line = "reload" :: s1 :: rest) :
    processLine acc line = ((parseDuration s1).1, acc.2) ∧
    ((parseDuration s1).2.isSome = true → (parseDuration s1).1 = 0) := by
  constructor
  · simp [processLine, hsplit]
  · exact parseDuration_err_zero s1

theorem C2_witness :
    processLine (42, []) "reload xyz" = ((parseDuration "xyz").1, (42, ([] : List Host)).2) ∧
    ((parseDuration "xyz").2.isSome = true → (parseDuration "xyz").1 = 0) :=
  C2_reload_directive_sets_parse_result (42, []) "reload xyz" "xyz" [] (by decide)

/-- C3: the claim states that Reload is a no-op whenever the source is
empty or unreadable-as-no-content, or the table is stopped.  The code
only short-circuits on a nil reader (or a stopped table): a present but
empty source is a successful reload that replaces the host sequence with
the empty sequence and the period with zero, so on a pre-seeded table it
does change the host sequence. -/
theorem C3_empty_source_counterexample :
    (Reload (NewHosts [NewHost (some (IPv4 10 0 0 1)) "a" []]) (some ⟨[], none⟩)).2 = none ∧
    (Reload (NewHosts [NewHost (some (IPv4 10 0 0 1)) "a" []]) (some ⟨[], none⟩)).1.hosts = [] ∧
    ¬(NewHosts [NewHost (some (IPv4 10 0 0 1)) "a" []]).hosts = [] := by
  decide

/-- C3 (amended): Reload is a no-op that returns success exactly when the
supplied reader is nil (absent) or the table has already been stopped; a
present but empty source instead succeeds and installs the empty host
sequence together with a zero period. -/
theorem C3_noop_on_nil_or_stopped (t : staticHosts) (r : Option Scanner) :
    ((r = none ∨ t.stopped = true) → Reload t r = (t, none)) ∧
    (t.stopped = false →
      Reload t (some ⟨[], none⟩) = ({ t with period := 0, hosts := [] }, none)) := by
  constructor
  · intro h
    rcases h with h | h
    · rw [h]
      rfl
    · cases r with
      | none => rfl
      | some sc => simp [Reload, staticHosts.Stopped, h]
  · intro h
    simp [Reload, staticHosts.Stopped, h]

theorem C3_witness :
    Reload (NewHosts [NewHost none "a" []]) none = (NewHosts [NewHost none "a" []], none) ∧
    Reload (NewHosts [NewHost none "a" []]) (some ⟨[], none⟩) =
      ({ NewHosts [NewHost none "a" []] with period := 0, hosts := [] }, none) :=
  ⟨(C3_noop_on_nil_or_stopped (NewHosts [NewHost none "a" []]) none).1 (Or.inl rfl),
   (C3_noop_on_nil_or_stopped (NewHosts [NewHost none "a" []]) none).2 rfl⟩

/-- C4: when the line scan of a non-stopped Reload ends with an I/O-level
scanner error, Reload returns exactly that error and the table is left
completely unmodified — the previous host sequence and period (the whole
state) remain in effect, whatever lines were delivered before the
failure. -/
theorem C4_scan_error_leaves_table (t : staticHosts) (lines : List String) (e : String)
    (h : t.stopped = false) :
    Reload t (some ⟨lines, some e⟩) = (t, some e) := by
  simp [Reload, staticHosts.Stopped, h]

theorem C4_witness :
    Reload (NewHosts [NewHost none "a" []]) (some ⟨["192.168.1.1 b"], some "read failure"⟩) =
      (NewHosts [NewHost none "a" []], some "read failure") :=
  C4_scan_error_leaves_table (NewHosts [NewHost none "a" []]) ["192.168.1.1 b"]
    "read failure" rfl

/-- C5: a line whose first token is neither the `reload` keyword nor a
parseable IP address is skipped with no effect on the accumulated state
and no error, and reloading a source containing such a line is the same
as reloading the source with that line removed — the valid records of the
other lines are still installed. -/
theorem C5_invalid_ip_line_skipped (t : staticHosts) (pre post : List String)
    (line s0 : String) (rest : List String) (hsplit : splitLine line = s0 :: rest)
    (hkw : ¬s0 = "reload") (hip : ParseIP s0 = none) :
    (∀ acc : Int × List Host, processLine acc line = acc) ∧
    Reload t (some ⟨pre ++ line :: post, none⟩) = Reload t (some ⟨pre ++ post, none⟩) := by
  have hskip : ∀ acc : Int × List Host, processLine acc line = acc := by
    intro acc
    cases rest with
    | nil => simp [processLine, hsplit]
    | cons s1 r2 => simp [processLine, hsplit, hkw, hip]
  refine ⟨hskip, ?_⟩
  have hfold : (pre ++ line :: post).foldl processLine ((0 : Int), ([] : List Host)) =
      (pre ++ post).foldl processLine ((0 : Int), ([] : List Host)) := by
    rw [List.foldl_append, List.foldl_append, List.foldl_cons, hskip]
  simp only [Reload, hfold]

theorem C5_witness :
    Reload (NewHosts []) (some ⟨["1.2.3.4 a", "not-an-ip  x", "5.6.7.8 b c"], none⟩) =
      Reload (NewHosts []) (some ⟨["1.2.3.4 a", "5.6.7.8 b c"], none⟩) :=
  (C5_invalid_ip_line_skipped (NewHosts []) ["1.2.3.4 a"] ["5.6.7.8 b c"]
    "not-an-ip  x" "not-an-ip" ["x"] (by decide) (by decide) (by decide)).2

/-- C7: the claim says Period (on a non-stopped table) returns the most
recently parsed reload-period value, zero only if no reload-period
directive was ever successfully applied.  Each Reload rebuilds the period
from zero out of its own source alone, so a successful reload whose
source carries no directive resets the period to zero even though a
directive had been successfully applied by the previous reload: after
reloading `reload 30s` and then `192.168.1.1 a`, Period returns 0
although the most recently parsed value is the 30s of the first reload. -/
theorem C7_reset_counterexample :
    (Reload (NewHosts []) (some ⟨["reload 30s"], none⟩)).1.period = 30000000000 ∧
    (Reload ((Reload (NewHosts []) (some ⟨["reload 30s"], none⟩)).1)
      (some ⟨["192.168.1.1 a"], none⟩)).1.stopped = false ∧
    Period ((Reload ((Reload (NewHosts []) (some ⟨["reload 30s"], none⟩)).1)
      (some ⟨["192.168.1.1 a"], none⟩)).1) = 0 ∧
    ¬(0 : Int) = 30000000000 := by
  have h1 : (Reload (NewHosts []) (some ⟨["reload 30s"], none⟩)).1 =
      { hosts := [], period := 30000000000, stopped := false } := by
    simp [Reload, processLine, splitLine, collectFields, splitOnChar, trimSpace, truncAtHash,
      tabToSpace, goIsSpace, parseDuration, durSign, durLoop, leadingInt, leadingFraction,
      unitMap, isUnitChar, isDigitChar, NewHosts, staticHosts.Stopped]
  have h2 : (Reload { hosts := [], period := 30000000000, stopped := false }
      (some ⟨["192.168.1.1 a"], none⟩)).1 =
      { hosts := [{ IP := some (IPv4 192 168 1 1), Hostname := "a", Aliases := [] }],
        period := 0, stopped := false } := by
    simp [Reload, processLine, splitLine, collectFields, splitOnChar, trimSpace, truncAtHash,
      tabToSpace, goIsSpace, ParseIP, ipClassify, parseIPv4Go, parseIPv4Fields, ipv4Field,
      dtoi, dtoiLoop, isDigitChar, staticHosts.Stopped]
  refine ⟨by rw [h1], ?_, ?_, by decide⟩
  · rw [h1, h2]
  · rw [h1, h2]
    rfl

/-- C7 (amended): Period returns -1 once the table is stopped; otherwise
it returns the stored period, which is zero on a freshly constructed
table and which every successful table-replacing Reload overwrites with
the value computed from that source alone (the last directive's parse
result, zero when the source has no directive or its last parse failed). -/
theorem C7_period_semantics (t : staticHosts) (lines : List String) (hs : List Host)
    (hst : t.stopped = false) :
    Period ((Reload t (some ⟨lines, none⟩)).1) =
      (lines.foldl processLine (0, [])).1 ∧
    Period (NewHosts hs) = 0 ∧
    ∀ u : staticHosts, u.stopped = true → Period u = -1 := by
  refine ⟨?_, rfl, ?_⟩
  · simp [Reload, Period, staticHosts.Stopped, hst]
  · intro u hu
    simp [Period, staticHosts.Stopped, hu]

theorem C7_witness :
    Period ((Reload (NewHosts []) (some ⟨["reload 1h"], none⟩)).1) =
      (["reload 1h"].foldl processLine (0, [])).1 ∧
    Period (NewHosts []) = 0 ∧
    Period ((NewHosts []).Stop) = -1 :=
  ⟨(C7_period_semantics (NewHosts []) ["reload 1h"] [] rfl).1,
   (C7_period_semantics (NewHosts []) ["reload 1h"] [] rfl).2.1,
   (C7_period_semantics (NewHosts []) ["reload 1h"] [] rfl).2.2 (NewHosts []).Stop rfl⟩

/-- C8: the claim describes the tokenizer as truncate-at-`'#'`, tabs to
spaces, trim the line, split on single spaces and discard empty
fragments.  The code additionally trims every fragment, so a fragment
made of non-space whitespace (for example a lone carriage return) is
dropped by the code but kept by the claim's pipeline: on `"a \r b"` the
code yields `["a", "b"]` while the claimed pipeline yields
`["a", "\r", "b"]`. -/
theorem C8_tokenizer_counterexample :
    splitLine "a \r b" = ["a", "b"] ∧
    specTokenize "a \r b" = ["a", "\r", "b"] ∧
    ¬specTokenize "a \r b" = splitLine "a \r b" := by
  decide

/-- C8 (amended): for every input line the tokenizer returns exactly the
tokens of the pipeline that truncates at the first `'#'`, replaces each
tab by a space, trims the line, splits on single-space boundaries, trims
each fragment of leading and trailing whitespace and discards the
fragments that are then empty; the empty line yields the empty token
sequence, and the function is deterministic with no side effects (it is a
pure function of the line). -/
theorem C8_tokenizer_pipeline (line : String) :
    splitLine line = specTokenizeTrimmed line ∧ splitLine "" = [] := by
  constructor
  · by_cases h : line = ""
    · subst h
      decide
    · simp [splitLine, specTokenizeTrimmed, h, collectFields_eq]
  · rfl

/-- C9: the single-line source `reload -1ns` makes a successful Reload on
a non-stopped table install the period -1, so Period afterwards returns
-1 — the same value as the stopped sentinel — while the table is not
stopped.  A Period result of -1 therefore does not imply that the table
is stopped. -/
theorem C9_sentinel_collision :
    (Reload (NewHosts []) (some ⟨["reload -1ns"], none⟩)).1.stopped = false ∧
    (Reload (NewHosts []) (some ⟨["reload -1ns"], none⟩)).2 = none ∧
    Period ((Reload (NewHosts []) (some ⟨["reload -1ns"], none⟩)).1) = -1 ∧
    Period ((NewHosts []).Stop) = -1 := by
  have h1 : Reload (NewHosts []) (some ⟨["reload -1ns"], none⟩) =
      ({ hosts := [], period := -1, stopped := false }, none) := by
    simp [Reload, processLine, splitLine, collectFields, splitOnChar, trimSpace, truncAtHash,
      tabToSpace, goIsSpace, parseDuration, durSign, durLoop, leadingInt, leadingFraction,
      unitMap, isUnitChar, isDigitChar, NewHosts, staticHosts.Stopped]
  refine ⟨by rw [h1], by rw [h1], ?_, rfl⟩
  rw [h1]
  rfl

end hosts
